import Mathlib

/-!
Verification of the ivsmeta PES reassembly and metadata extraction code.

Bytes are modelled as `Nat` (each in `[0, 256)` where it matters), byte
buffers as `List Nat`, Go strings as `List Char`.  Fallible Go code
(errors and runtime index-out-of-range panics) is modelled with
`Except` / `Option` results.  Names follow the Go source.
-/

/-- Stream id possibilities (pes.go constant block). -/
def STREAM_ID_PADDNG_STREAM : Nat := 190

def STREAM_ID_PRIVATE_STREAM_2 : Nat := 191

def STREAM_ID_ECM_STREAM : Nat := 240

def STREAM_ID_EMM_STREAM : Nat := 241

def STREAM_ID_DSM_CC_STREAM : Nat := 242

def STREAM_ID_ITU_T_H222_1_TYPE_E : Nat := 248

def STREAM_ID_PROGRAM_STREAM_DIRECTORY : Nat := 255

/-- gots PTS/DTS indicator: none (header diagram: flag bits `00`). -/
def PTS_DTS_INDICATOR_NONE : Nat := 0

/-- gots PTS/DTS indicator: only PTS (header diagram: `10 = ONLY PTS`). -/
def PTS_DTS_INDICATOR_ONLY_PTS : Nat := 2

/-- gots PTS/DTS indicator: both PTS and DTS (header diagram: `11 = BOTH`). -/
def PTS_DTS_INDICATOR_BOTH : Nat := 3

/-- The parsed PES header (struct `PESHeader` in pes.go).  Field names and
order follow the Go struct; the Go zero values are supplied explicitly at
construction time. -/
structure PESHeader where
  packetStartCodePrefix : Nat
  dataAlignment : Bool
  streamId : Nat
  pesPacketLength : Nat
  dataStartIndex : Nat
  ptsDtsIndicator : Nat
  pts : Nat
  dts : Nat
  data : List Nat
deriving Repr, DecidableEq

/-- `ExtractTime` (pes.go): assembles a 33-bit PTS/DTS from a 5-byte field.
The Go code indexes `bytes[0]`..`bytes[4]`; it is only called with exactly
five bytes in hand, which `getD` reads identically. -/
def ExtractTime (bytes : List Nat) : Nat :=
  let a := (bytes.getD 0 0 >>> 1) &&& 0x07
  let b := bytes.getD 1 0
  let c := (bytes.getD 2 0 >>> 1) &&& 0x7f
  let d := bytes.getD 3 0
  let e := (bytes.getD 4 0 >>> 1) &&& 0x7f
  (a <<< 30) ||| (b <<< 22) ||| (c <<< 15) ||| (d <<< 7) ||| e

/-- `CheckLength` (pes.go): true when at least `min` bytes are present.
The `name` argument is only used in (removed) diagnostics. -/
def CheckLength (byteArray : List Nat) (name : String) (min : Nat) : Bool :=
  if byteArray.length < min then false else true

/-- `optionalFieldsExist` (pes.go): stream ids defined to never carry an
optional header. -/
def optionalFieldsExist (streamId : Nat) : Bool :=
  if streamId = STREAM_ID_PADDNG_STREAM ∨
      streamId = STREAM_ID_PRIVATE_STREAM_2 ∨
      streamId = STREAM_ID_ECM_STREAM ∨
      streamId = STREAM_ID_EMM_STREAM ∨
      streamId = STREAM_ID_DSM_CC_STREAM ∨
      streamId = STREAM_ID_ITU_T_H222_1_TYPE_E ∨
      streamId = STREAM_ID_PROGRAM_STREAM_DIRECTORY then
    false
  else
    true

/-- How `NewPESHeader` can fail: the explicit length check, or the Go
runtime panic on an out-of-bounds index. -/
inductive PESError where
  | tooShort (n : Nat)
  | indexOutOfRange
deriving Repr, DecidableEq

/-- `NewPESHeader` (pes.go).  All reads except `pesBytes[6]` are performed
under a `CheckLength` guard that puts them in bounds, so they are written
with `getD`; the read of `pesBytes[6]` has no guard beyond
`CheckLength(pesBytes, "PES", 6)`, so with exactly six bytes it is a Go
index-out-of-range panic, modelled as `PESError.indexOutOfRange`. -/
def NewPESHeader (pesBytes : List Nat) : Except PESError PESHeader :=
  if CheckLength pesBytes "PES" 6 = false then
    .error (.tooShort pesBytes.length)
  else if _hpanic : pesBytes.length ≤ 6 then
    .error .indexOutOfRange
  else
    let packetStartCodePrefix :=
      (pesBytes.getD 0 0 <<< 16) ||| (pesBytes.getD 1 0 <<< 8) ||| pesBytes.getD 2 0
    let streamId := pesBytes.getD 3 0
    let pesPacketLength := (pesBytes.getD 4 0 <<< 8) ||| pesBytes.getD 5 0
    let dataAlignment := decide (pesBytes.getD 6 0 &&& 0x04 ≠ 0)
    let base : PESHeader :=
      { packetStartCodePrefix := packetStartCodePrefix
        dataAlignment := dataAlignment
        streamId := streamId
        pesPacketLength := pesPacketLength
        dataStartIndex := 6
        ptsDtsIndicator := 0
        pts := 0
        dts := 0
        data := [] }
    let pes :=
      if optionalFieldsExist streamId = true ∧ CheckLength pesBytes "Optional Fields" 9 = true then
        let ptsDtsIndicator := (pesBytes.getD 7 0 &&& 0xc0) >>> 6
        let pesHeaderLength := pesBytes.getD 8 0
        let dataStartIndex := 9 + pesHeaderLength
        let pts :=
          if ptsDtsIndicator ≠ PTS_DTS_INDICATOR_NONE ∧ CheckLength pesBytes "PTS" 14 = true then
            ExtractTime ((pesBytes.drop 9).take 5)
          else 0
        let dts :=
          if (ptsDtsIndicator ≠ PTS_DTS_INDICATOR_NONE ∧ CheckLength pesBytes "PTS" 14 = true) ∧
              (ptsDtsIndicator = PTS_DTS_INDICATOR_BOTH ∧ CheckLength pesBytes "DTS" 19 = true) then
            ExtractTime ((pesBytes.drop 14).take 5)
          else 0
        { base with
            ptsDtsIndicator := ptsDtsIndicator
            dataStartIndex := dataStartIndex
            pts := pts
            dts := dts }
      else base
    let data :=
      if pes.dataStartIndex < pesBytes.length then pesBytes.drop pes.dataStartIndex else []
    .ok { pes with data := data }

/-- `PacketSize` (pes.go): remaining payload bytes the accumulator should
expect; a Go `int`, so it can be negative. -/
def PESHeader.PacketSize (pes : PESHeader) : Int :=
  (pes.pesPacketLength : Int) - ((pes.dataStartIndex : Int) - 6)

/-- `DataAligned` (pes.go). -/
def PESHeader.DataAligned (pes : PESHeader) : Bool :=
  pes.dataAlignment

/-- `PTS` getter (pes.go). -/
def PESHeader.PTS (pes : PESHeader) : Nat :=
  pes.pts

/-- `DTS` getter (pes.go). -/
def PESHeader.DTS (pes : PESHeader) : Nat :=
  pes.dts

/-- The transport packet as the accumulator sees it: its PID and the
results of the two external gots extractors it is passed through
(`packet.PESHeader(pkt)` and `pkt.Payload()`), `none` when the extractor
fails. -/
structure Packet where
  pid : Nat
  pesHeaderBytes : Option (List Nat)
  payload : Option (List Nat)
deriving Repr, DecidableEq

/-- Errors out of `PESAccumulator.Write` / `checkDone`. -/
inductive WriteError where
  | noPESHeader
  | failedPESParse (e : PESError)
  | failedPayload
  | overrun
deriving Repr, DecidableEq

/-- `PESAccumulator` (accumulator.go).  Field names follow the Go struct;
`PESHeader` is a pointer there, hence `Option` here. -/
structure PESAccumulator where
  PESHeader : Option PESHeader
  packetSize : Int
  Data : List Nat
deriving Repr, DecidableEq

/-- The zero-value `&PESAccumulator{}` the pipeline starts from. -/
def emptyPESAccumulator : PESAccumulator :=
  { PESHeader := none, packetSize := 0, Data := [] }

/-- The `pa.PESHeader.PacketSize()` dereference in `checkDone`; the header
is always set when `checkDone` runs (Write either sets it or returns
early), so the `none` default is dead. -/
def PESAccumulator.headerPacketSize (pa : PESAccumulator) : Int :=
  (pa.PESHeader.map PESHeader.PacketSize).getD 0

/-- `checkDone` (accumulator.go): overrun when the buffer exceeds the
expected size (done together with an error), else done exactly when the
buffer length equals the header's packet size. -/
def PESAccumulator.checkDone (pa : PESAccumulator) : Bool × Option WriteError :=
  if (pa.Data.length : Int) > pa.packetSize then
    (true, some .overrun)
  else
    (decide ((pa.Data.length : Int) = pa.headerPacketSize), none)

/-- `Write` (accumulator.go).  The first packet must yield PES header
bytes, which are parsed and seed the buffer with the header's trailing
data; later packets append their payload.  Returns the new state together
with Go's `(done, err)` pair. -/
def PESAccumulator.Write (pa : PESAccumulator) (pkt : Packet) :
    PESAccumulator × Bool × Option WriteError :=
  match pa.PESHeader with
  | none =>
    match pkt.pesHeaderBytes with
    | none => (pa, false, some .noPESHeader)
    | some pesBytes =>
      match NewPESHeader pesBytes with
      | .error e => (pa, false, some (.failedPESParse e))
      | .ok pes =>
        let pa' : PESAccumulator :=
          { PESHeader := some pes, packetSize := pes.PacketSize, Data := pes.data }
        (pa', pa'.checkDone)
  | some _ =>
    match pkt.payload with
    | none => (pa, false, some .failedPayload)
    | some payload =>
      let pa' := { pa with Data := pa.Data ++ payload }
      (pa', pa'.checkDone)

/-- Feeds a list of packets to an accumulator, recording each write's
`(done, err)` observation in order, with the final state. -/
def accumRun (pa : PESAccumulator) : List Packet → PESAccumulator × List (Bool × Option WriteError)
  | [] => (pa, [])
  | pkt :: rest =>
    let w := pa.Write pkt
    let r := accumRun w.1 rest
    (r.1, (w.2.1, w.2.2) :: r.2)

/-- A packet whose PES-header extraction yields `bytes` (test harness for
the accumulator's first write, which ignores `pid` and `payload`). -/
def mkHeaderPkt (bytes : List Nat) : Packet :=
  { pid := 0, pesHeaderBytes := some bytes, payload := some [] }

/-- A packet whose payload extraction yields `chunk` (test harness for
subsequent writes, which ignore `pid` and `pesHeaderBytes`). -/
def mkPayloadPkt (chunk : List Nat) : Packet :=
  { pid := 0, pesHeaderBytes := none, payload := some chunk }

/-- The `(done, err)` observation `checkDone` makes of a buffer of length
`n` against expected size `L` (statement vocabulary for trace lemmas). -/
def stepObs (L : Int) (n : Nat) : Bool × Option WriteError :=
  if (n : Int) > L then (true, some .overrun) else (decide ((n : Int) = L), none)

/-- Buffer length after write `i` of a run seeded by header `pes` followed
by payload chunks `chunks` (write 0 is the header write). -/
def cumLen (pes : PESHeader) (chunks : List (List Nat)) (i : Nat) : Nat :=
  pes.data.length + (((chunks.take i).map List.length).sum)

/-- The NUL byte Go's `strings.Split(v, "\x00")` splits on. -/
def nulChar : Char := '\x00'

/-- `Value` (ivsmeta.go): an ID3 track value split into an optional prefix
and the actual value. -/
structure Value where
  Prefix : List Char
  Value : List Char
deriving Repr, DecidableEq

/-- Go `strings.Split(v, "\x00")` for the one-byte separator: the segments
between NUL occurrences, empty segments included; `n` NULs give `n + 1`
segments. -/
def splitOnNul : List Char → List (List Char)
  | [] => [[]]
  | ch :: rest =>
    if ch = nulChar then
      [] :: splitOnNul rest
    else
      match splitOnNul rest with
      | [] => [[ch]]
      | seg :: segs => (ch :: seg) :: segs

/-- `parseValue` (ivsmeta.go): exactly two segments give a prefix/value
pair, any other segment count leaves the whole string as the value. -/
def parseValue (v : List Char) : Value :=
  let split := splitOnNul v
  if split.length = 2 then
    { Prefix := split.getD 0 [], Value := split.getD 1 [] }
  else
    { Prefix := [], Value := v }

/-- `MetaInfo` (ivsmeta.go): the PTS plus the decoded tag map (modelled as
an association list; Go map iteration order is not semantically
significant here). -/
structure MetaInfo where
  PTS : Nat
  MetaData : List (String × Value)
deriving Repr, DecidableEq

/-- `parseID3` (ivsmeta.go): hands the accumulated buffer to the external
`easyid3.ReadID3` decoder (passed in as `readID3`, `none` = decode
failure), then splits each raw tag value. -/
def parseID3 (readID3 : List Nat → Option (List (String × String)))
    (pa : PESAccumulator) : Option MetaInfo :=
  match readID3 pa.Data with
  | none => none
  | some tags =>
    some
      { PTS := (pa.PESHeader.map PESHeader.PTS).getD 0
        MetaData := tags.map fun tv => (tv.1, parseValue tv.2.toList) }

/-- Fatal pipeline errors (everything `readPacketStream` can send besides
`io.EOF`). -/
inductive PipeError where
  | failedRead
  | failedAccumulation (e : WriteError)
  | failedID3
deriving Repr, DecidableEq

/-- One result of `io.ReadFull(r, pkt[:])` in the packet loop: a full
188-byte packet, clean end of input (`io.EOF`), a truncated final packet
(`io.ErrUnexpectedEOF`), or any other read error. -/
inductive ReadEvent where
  | pkt (p : Packet)
  | eof
  | truncated
  | failed
deriving Repr, DecidableEq

/-- What one iteration of the packet loop does with one packet. -/
inductive StepResult where
  | fatal (e : PipeError)
  | emit (mi : MetaInfo)
  | next (pa : PESAccumulator)
deriving Repr, DecidableEq

/-- The body of the packet loop (ivsmeta.go `readPacketStream`) for one
packet: ignore other PIDs, feed the accumulator, and on done decode the
unit; `emit` restarts from a fresh accumulator. -/
def stepPacket (metadataPID : Nat) (readID3 : List Nat → Option (List (String × String)))
    (pa : PESAccumulator) (p : Packet) : StepResult :=
  if p.pid = metadataPID then
    let w := pa.Write p
    match w.2.2 with
    | some e => .fatal (.failedAccumulation e)
    | none =>
      if w.2.1 then
        match parseID3 readID3 w.1 with
        | none => .fatal .failedID3
        | some mi => .emit mi
      else .next w.1
  else .next pa

/-- `readPacketStream` composed with `Read`'s channel collection
(ivsmeta.go): runs the packet loop over the read events and returns the
records completed in order, together with `Read`'s terminal error —
`io.EOF` and `io.ErrUnexpectedEOF` terminate successfully, any other read
failure is fatal.  A well-formed input ends in a terminal event; the `[]`
case is unreachable (the Go reader blocks). -/
def readPacketStream (metadataPID : Nat)
    (readID3 : List Nat → Option (List (String × String))) :
    PESAccumulator → List ReadEvent → List MetaInfo × Option PipeError
  | _, [] => ([], none)
  | _, .eof :: _ => ([], none)
  | _, .truncated :: _ => ([], none)
  | _, .failed :: _ => ([], some .failedRead)
  | pa, .pkt p :: rest =>
    match stepPacket metadataPID readID3 pa p with
    | .fatal e => ([], some e)
    | .emit mi =>
      let r := readPacketStream metadataPID readID3 emptyPESAccumulator rest
      (mi :: r.1, r.2)
    | .next pa' => readPacketStream metadataPID readID3 pa' rest

/-- The records the packet loop completes from the packets alone (the
spec's "records completed before that point, in input order"), with the
first fatal processing error if any. -/
def processPackets (metadataPID : Nat)
    (readID3 : List Nat → Option (List (String × String))) :
    PESAccumulator → List Packet → List MetaInfo × Option PipeError
  | _, [] => ([], none)
  | pa, p :: rest =>
    match stepPacket metadataPID readID3 pa p with
    | .fatal e => ([], some e)
    | .emit mi =>
      let r := processPackets metadataPID readID3 emptyPESAccumulator rest
      (mi :: r.1, r.2)
    | .next pa' => processPackets metadataPID readID3 pa' rest

theorem newPESHeader_ok_length {b : List Nat} {pes : PESHeader}
    (h : NewPESHeader b = .ok pes) : 6 < b.length := by
  by_cases h6 : b.length < 6
  · simp [NewPESHeader, CheckLength, h6] at h
  · by_cases h7 : b.length ≤ 6
    · simp [NewPESHeader, CheckLength, h6, h7] at h
    · omega

theorem newPESHeader_ok_noOpt {b : List Nat} {pes : PESHeader}
    (hopt : optionalFieldsExist (b.getD 3 0) = false)
    (h : NewPESHeader b = .ok pes) :
    pes.dataStartIndex = 6 ∧ pes.ptsDtsIndicator = 0 ∧ pes.pts = 0 ∧ pes.dts = 0 ∧
      pes.data = b.drop 6 ∧ pes.dataAlignment = decide (b.getD 6 0 &&& 0x04 ≠ 0) ∧
      pes.streamId = b.getD 3 0 ∧
      pes.pesPacketLength = (b.getD 4 0 <<< 8) ||| b.getD 5 0 := by
  have hlen := newPESHeader_ok_length h
  have h6 : ¬ b.length < 6 := by omega
  have h7 : ¬ b.length ≤ 6 := by omega
  simp only [List.getD_eq_getElem?_getD] at hopt
  simp [NewPESHeader, CheckLength, h6, h7, hopt, hlen] at h
  subst h
  simp [List.getD_eq_getElem?_getD, List.getElem?_eq_getElem, hlen]

theorem newPESHeader_ok_dataAlignment {b : List Nat} {pes : PESHeader}
    (h : NewPESHeader b = .ok pes) :
    pes.dataAlignment = decide (b.getD 6 0 &&& 0x04 ≠ 0) := by
  have hlen := newPESHeader_ok_length h
  have h6 : ¬ b.length < 6 := by omega
  have h7 : ¬ b.length ≤ 6 := by omega
  simp [NewPESHeader, CheckLength, h6, h7] at h
  by_cases hopt : optionalFieldsExist (b[3]?.getD 0) = true ∧ 9 ≤ b.length
  · simp [hopt] at h
    subst h
    simp [List.getD_eq_getElem?_getD, List.getElem?_eq_getElem, hlen]
  · simp [hopt] at h
    subst h
    simp [List.getD_eq_getElem?_getD, List.getElem?_eq_getElem, hlen]

theorem newPESHeader_ok_dataStartIndex {b : List Nat} {pes : PESHeader}
    (h : NewPESHeader b = .ok pes) :
    pes.dataStartIndex = 6 ∨ 9 ≤ pes.dataStartIndex := by
  have hlen := newPESHeader_ok_length h
  have h6 : ¬ b.length < 6 := by omega
  have h7 : ¬ b.length ≤ 6 := by omega
  simp [NewPESHeader, CheckLength, h6, h7] at h
  by_cases hopt : optionalFieldsExist (b[3]?.getD 0) = true ∧ 9 ≤ b.length
  · simp [hopt] at h
    subst h
    simp only [PESHeader.dataStartIndex]
    omega
  · simp [hopt] at h
    subst h
    simp

/-- C1: ExtractTime assembles the 33-bit value
`(a<<30)|(b<<22)|(c<<15)|(d<<7)|e` from the masked fragments of the five
bytes, the result fits in 33 bits, and the literal vector
`[0x21, 0x00, 0x05, 0xBF, 0x21]` yields 90000. -/
theorem extractTime_bit_layout (b0 b1 b2 b3 b4 : Nat)
    (h0 : b0 < 256) (h1 : b1 < 256) (h2 : b2 < 256) (h3 : b3 < 256) (h4 : b4 < 256) :
    ExtractTime [b0, b1, b2, b3, b4]
        = ((((b0 >>> 1) &&& 0x07) <<< 30) ||| (b1 <<< 22) ||| (((b2 >>> 1) &&& 0x7f) <<< 15)
            ||| (b3 <<< 7) ||| ((b4 >>> 1) &&& 0x7f))
      ∧ ExtractTime [b0, b1, b2, b3, b4] < 2 ^ 33
      ∧ ExtractTime [0x21, 0x00, 0x05, 0xBF, 0x21] = 90000 := by
  have e1 : ExtractTime [b0, b1, b2, b3, b4]
      = ((((b0 >>> 1) &&& 0x07) <<< 30) ||| (b1 <<< 22) ||| (((b2 >>> 1) &&& 0x7f) <<< 15)
          ||| (b3 <<< 7) ||| ((b4 >>> 1) &&& 0x7f)) := rfl
  refine ⟨e1, ?_, by decide⟩
  rw [e1]
  have t1 : ((b0 >>> 1) &&& 0x07) <<< 30 < 2 ^ 33 := by
    have h := Nat.and_le_right (n := b0 >>> 1) (m := 0x07)
    rw [Nat.shiftLeft_eq]
    omega
  have t2 : b1 <<< 22 < 2 ^ 33 := by
    rw [Nat.shiftLeft_eq]
    omega
  have t3 : ((b2 >>> 1) &&& 0x7f) <<< 15 < 2 ^ 33 := by
    have h := Nat.and_le_right (n := b2 >>> 1) (m := 0x7f)
    rw [Nat.shiftLeft_eq]
    omega
  have t4 : b3 <<< 7 < 2 ^ 33 := by
    rw [Nat.shiftLeft_eq]
    omega
  have t5 : (b4 >>> 1) &&& 0x7f < 2 ^ 33 := by
    have h := Nat.and_le_right (n := b4 >>> 1) (m := 0x7f)
    omega
  exact Nat.or_lt_two_pow (Nat.or_lt_two_pow (Nat.or_lt_two_pow (Nat.or_lt_two_pow t1 t2) t3) t4) t5

theorem extractTime_bit_layout_witness :
    ExtractTime [0x21, 0x00, 0x05, 0xBF, 0x21] = 90000 :=
  (extractTime_bit_layout 0x21 0x00 0x05 0xBF 0x21 (by decide) (by decide) (by decide)
    (by decide) (by decide)).2.2

/-- C9: a buffer of fewer than 6 bytes makes NewPESHeader fail with the
length error; no header is returned. -/
theorem newPESHeader_short_buffer_errors (b : List Nat) (h : b.length < 6) :
    NewPESHeader b = .error (.tooShort b.length) := by
  simp [NewPESHeader, CheckLength, h]

theorem newPESHeader_short_buffer_errors_witness :
    NewPESHeader [0, 0, 1] = .error (.tooShort 3) :=
  newPESHeader_short_buffer_errors [0, 0, 1] (by decide)

/-- C5 (the code slip): a 6-byte buffer passes the `CheckLength ≥ 6` guard
yet the unguarded `pesBytes[6]` read is out of bounds, a Go
index-out-of-range panic. -/
theorem newPESHeader_six_bytes_out_of_bounds :
    6 ≤ ([0, 0, 1, 224, 0, 0] : List Nat).length
      ∧ NewPESHeader [0, 0, 1, 224, 0, 0] = .error .indexOutOfRange := by
  exact ⟨by decide, rfl⟩

/-- C4 counterexample: stream id 190 (padding stream) is in the
no-optional-field set, yet with byte 6 = 0x04 the parsed header's
data-alignment flag is true. -/
theorem dataAligned_noOpt_counterexample :
    optionalFieldsExist 190 = false
      ∧ (NewPESHeader [0, 0, 1, 190, 0, 0, 4]).map PESHeader.DataAligned = .ok true := by
  exact ⟨by decide, rfl⟩

/-- C4 amended: the parser reads the data-alignment flag from bit 2 of
byte index 6 unconditionally — for every successfully parsed buffer,
whatever the stream identifier, the flag equals `b[6] & 0x04 ≠ 0`. -/
theorem dataAligned_read_unconditionally (b : List Nat) (pes : PESHeader)
    (h : NewPESHeader b = .ok pes) :
    pes.DataAligned = decide (b.getD 6 0 &&& 0x04 ≠ 0) := by
  simpa [PESHeader.DataAligned] using newPESHeader_ok_dataAlignment h

theorem dataAligned_read_unconditionally_witness :
    PESHeader.DataAligned
        { packetStartCodePrefix := 1, dataAlignment := true, streamId := 190,
          pesPacketLength := 0, dataStartIndex := 6, ptsDtsIndicator := 0,
          pts := 0, dts := 0, data := [4] }
      = decide (([0, 0, 1, 190, 0, 0, 4] : List Nat).getD 6 0 &&& 0x04 ≠ 0) :=
  dataAligned_read_unconditionally [0, 0, 1, 190, 0, 0, 4] _ rfl

/-- C8: with a no-optional-field stream id a parsed header has data start
offset 6, no PTS or DTS, and data equal to everything beyond index 6 —
but the buffer of exactly 6 bytes the claim also covers does not parse:
the unguarded `pesBytes[6]` read panics instead of returning an empty
payload. -/
theorem noOpt_header_shape :
    (NewPESHeader [0, 0, 1, 190, 0, 0] = .error .indexOutOfRange)
      ∧ (∀ (b : List Nat) (pes : PESHeader),
          optionalFieldsExist (b.getD 3 0) = false →
          NewPESHeader b = .ok pes →
          pes.dataStartIndex = 6 ∧ pes.pts = 0 ∧ pes.dts = 0 ∧ pes.data = b.drop 6) := by
  refine ⟨rfl, fun b pes hopt h => ?_⟩
  obtain ⟨h1, _, h3, h4, h5, _, _, _⟩ := newPESHeader_ok_noOpt hopt h
  exact ⟨h1, h3, h4, h5⟩

/-! ### Accumulator trace lemmas -/

theorem checkDone_stepObs (pes : PESHeader) (D : List Nat) :
    PESAccumulator.checkDone
        { PESHeader := some pes, packetSize := pes.PacketSize, Data := D }
      = stepObs pes.PacketSize D.length := by
  simp [PESAccumulator.checkDone, stepObs, PESAccumulator.headerPacketSize]

theorem write_payload_state (pes : PESHeader) (D c : List Nat) :
    PESAccumulator.Write
        { PESHeader := some pes, packetSize := pes.PacketSize, Data := D }
        (mkPayloadPkt c)
      = ({ PESHeader := some pes, packetSize := pes.PacketSize, Data := D ++ c },
          stepObs pes.PacketSize (D.length + c.length)) := by
  have h := checkDone_stepObs pes (D ++ c)
  simp only [PESAccumulator.Write, mkPayloadPkt]
  rw [h]
  simp

theorem write_header_state (bytes : List Nat) (pes : PESHeader)
    (h : NewPESHeader bytes = .ok pes) :
    PESAccumulator.Write emptyPESAccumulator (mkHeaderPkt bytes)
      = ({ PESHeader := some pes, packetSize := pes.PacketSize, Data := pes.data },
          stepObs pes.PacketSize pes.data.length) := by
  simp only [PESAccumulator.Write, emptyPESAccumulator, mkHeaderPkt, h]
  rw [checkDone_stepObs]

theorem accumRun_payload_trace (pes : PESHeader) (cs : List (List Nat)) :
    ∀ D : List Nat,
      accumRun { PESHeader := some pes, packetSize := pes.PacketSize, Data := D }
          (cs.map mkPayloadPkt)
        = ({ PESHeader := some pes, packetSize := pes.PacketSize, Data := D ++ cs.flatten },
            (List.range cs.length).map fun i =>
              stepObs pes.PacketSize (D.length + ((cs.take (i + 1)).map List.length).sum)) := by
  induction cs with
  | nil => intro D; simp [accumRun]
  | cons c cs ih =>
    intro D
    simp only [List.map_cons, accumRun, write_payload_state, ih (D ++ c)]
    refine Prod.ext ?_ ?_
    · simp
    · simp only [List.length_cons, List.range_succ_eq_map, List.map_cons, List.map_map]
      refine congrArg₂ _ ?_ ?_
      · simp [List.take_succ_cons]
      · refine List.map_congr_left fun i _ => ?_
        simp [Function.comp, List.take_succ_cons, Nat.succ_eq_add_one]
        ring_nf

theorem accumRun_full (first : List Nat) (chunks : List (List Nat)) (pes : PESHeader)
    (hp : NewPESHeader first = .ok pes) :
    accumRun emptyPESAccumulator (mkHeaderPkt first :: chunks.map mkPayloadPkt)
      = ({ PESHeader := some pes, packetSize := pes.PacketSize,
            Data := pes.data ++ chunks.flatten },
          stepObs pes.PacketSize (cumLen pes chunks 0)
            :: (List.range chunks.length).map fun i =>
                stepObs pes.PacketSize (cumLen pes chunks (i + 1))) := by
  simp only [accumRun, write_header_state first pes hp,
    accumRun_payload_trace pes chunks pes.data]
  simp [cumLen]

theorem accumRun_full_length (first : List Nat) (chunks : List (List Nat)) (pes : PESHeader)
    (hp : NewPESHeader first = .ok pes) :
    (accumRun emptyPESAccumulator (mkHeaderPkt first :: chunks.map mkPayloadPkt)).2.length
      = chunks.length + 1 := by
  rw [accumRun_full first chunks pes hp]
  simp

theorem accumRun_full_getD (first : List Nat) (chunks : List (List Nat)) (pes : PESHeader)
    (hp : NewPESHeader first = .ok pes) (i : Nat) (hi : i ≤ chunks.length) :
    (accumRun emptyPESAccumulator (mkHeaderPkt first :: chunks.map mkPayloadPkt)).2.getD
        i (false, none)
      = stepObs pes.PacketSize (cumLen pes chunks i) := by
  rw [accumRun_full first chunks pes hp]
  match i with
  | 0 => simp
  | j + 1 =>
    have hj : j < chunks.length := by omega
    have hlen : j < ((List.range chunks.length).map fun i =>
        stepObs pes.PacketSize (cumLen pes chunks (i + 1))).length := by
      simpa using hj
    simp only [List.getD_cons_succ]
    rw [List.getD_eq_getElem _ _ hlen, List.getElem_map, List.getElem_range]

theorem length_le_sum_lengths (l : List (List Nat)) (h : ∀ c ∈ l, c ≠ []) :
    l.length ≤ (l.map List.length).sum := by
  induction l with
  | nil => simp
  | cons c cs ih =>
    have hc : 0 < c.length := List.length_pos.mpr (h c (by simp))
    have := ih fun d hd => h d (by simp [hd])
    simp only [List.map_cons, List.sum_cons, List.length_cons]
    omega

theorem cumLen_le (pes : PESHeader) (chunks : List (List Nat)) (i : Nat) :
    cumLen pes chunks i ≤ cumLen pes chunks chunks.length := by
  simp only [cumLen, List.take_length]
  have : ((chunks.take i).map List.length).sum + ((chunks.drop i).map List.length).sum
      = (chunks.map List.length).sum := by
    rw [← List.sum_take_add_sum_drop (chunks.map List.length) i, List.map_take, List.map_drop]
  omega

theorem cumLen_lt_of_lt (pes : PESHeader) (chunks : List (List Nat))
    (hne : ∀ c ∈ chunks, c ≠ []) (i : Nat) (hi : i < chunks.length) :
    cumLen pes chunks i < cumLen pes chunks chunks.length := by
  simp only [cumLen, List.take_length]
  have hsplit : ((chunks.take i).map List.length).sum + ((chunks.drop i).map List.length).sum
      = (chunks.map List.length).sum := by
    rw [← List.sum_take_add_sum_drop (chunks.map List.length) i, List.map_take, List.map_drop]
  have hdrop : (chunks.drop i).length ≤ ((chunks.drop i).map List.length).sum :=
    length_le_sum_lengths _ fun c hc => hne c (List.mem_of_mem_drop hc)
  have : i < chunks.length := hi
  rw [List.length_drop] at hdrop
  omega

/-- C2: a run seeded by a header whose trailing bytes plus the subsequent
(nonempty) chunks total exactly the remaining expected size reports done
exactly once — on the last write, with no error — and ends with the
buffer equal to the header's trailing bytes followed by the chunks in
order.  With no subsequent chunks (expected total already reached, e.g.
zero with zero trailing payload) the first write itself reports done. -/
theorem accumulator_completes_exactly_once (first : List Nat) (chunks : List (List Nat))
    (pes : PESHeader)
    (hp : NewPESHeader first = .ok pes)
    (hne : ∀ c ∈ chunks, c ≠ [])
    (hsum : (pes.data.length : Int) + ((chunks.map List.length).sum : Int) = pes.PacketSize) :
    ((accumRun emptyPESAccumulator (mkHeaderPkt first :: chunks.map mkPayloadPkt)).2.length
        = chunks.length + 1)
      ∧ (∀ i ≤ chunks.length,
          (accumRun emptyPESAccumulator
              (mkHeaderPkt first :: chunks.map mkPayloadPkt)).2.getD i (false, none)
            = if i = chunks.length then (true, none) else (false, none))
      ∧ (accumRun emptyPESAccumulator
            (mkHeaderPkt first :: chunks.map mkPayloadPkt)).1.Data
          = pes.data ++ chunks.flatten := by
  have htot : (cumLen pes chunks chunks.length : Int) = pes.PacketSize := by
    simp only [cumLen, List.take_length]
    push_cast at hsum ⊢
    exact hsum
  refine ⟨accumRun_full_length first chunks pes hp, fun i hi => ?_, ?_⟩
  · rw [accumRun_full_getD first chunks pes hp i hi]
    by_cases hend : i = chunks.length
    · subst hend
      have hngt : ¬ ((cumLen pes chunks chunks.length : Int) > pes.PacketSize) := by omega
      simp [stepObs, hngt, htot]
    · have hlt : (cumLen pes chunks i : Int) < pes.PacketSize := by
        have := cumLen_lt_of_lt pes chunks hne i (by omega)
        have hle := cumLen_le pes chunks i
        omega
      have hngt : ¬ ((cumLen pes chunks i : Int) > pes.PacketSize) := by omega
      have hne' : (cumLen pes chunks i : Int) ≠ pes.PacketSize := by omega
      simp [stepObs, hngt, hne', hend]
  · rw [accumRun_full first chunks pes hp]

theorem accumulator_completes_exactly_once_witness :
    ((accumRun emptyPESAccumulator
        (mkHeaderPkt [0, 0, 1, 190, 0, 3, 10] :: [[11, 12]].map mkPayloadPkt)).2.getD 1
          (false, none) = (true, none))
      ∧ (accumRun emptyPESAccumulator
          (mkHeaderPkt [0, 0, 1, 190, 0, 3, 10] :: [[11, 12]].map mkPayloadPkt)).1.Data
        = [10] ++ [[11, 12]].flatten := by
  have h := accumulator_completes_exactly_once [0, 0, 1, 190, 0, 3, 10] [[11, 12]]
    { packetStartCodePrefix := 1, dataAlignment := false, streamId := 190,
      pesPacketLength := 3, dataStartIndex := 6, ptsDtsIndicator := 0,
      pts := 0, dts := 0, data := [10] }
    rfl (by decide) (by decide)
  exact ⟨by simpa using h.2.1 1 (by decide), h.2.2⟩

/-- C3: after every write the accumulator reports the fatal overrun error
exactly when the buffer length strictly exceeds the expected size; in a
run that is still short of the boundary before chunk `m` and crosses it
with chunk `m`, every earlier write reports (not done, no error) and
write `m` itself reports the overrun (with done, terminating the unit). -/
theorem accumulator_overrun_on_crossing_chunk (first : List Nat)
    (chunks : List (List Nat)) (pes : PESHeader)
    (hp : NewPESHeader first = .ok pes) :
    (∀ i ≤ chunks.length,
        ((accumRun emptyPESAccumulator
            (mkHeaderPkt first :: chunks.map mkPayloadPkt)).2.getD i (false, none)).2
          = if (cumLen pes chunks i : Int) > pes.PacketSize then some .overrun else none)
      ∧ (∀ m ≤ chunks.length,
          (∀ i < m, (cumLen pes chunks i : Int) < pes.PacketSize) →
          (cumLen pes chunks m : Int) > pes.PacketSize →
          (accumRun emptyPESAccumulator
              (mkHeaderPkt first :: chunks.map mkPayloadPkt)).2.take m
              = List.replicate m (false, none)
            ∧ (accumRun emptyPESAccumulator
                (mkHeaderPkt first :: chunks.map mkPayloadPkt)).2.getD m (false, none)
              = (true, some .overrun)) := by
  constructor
  · intro i hi
    rw [accumRun_full_getD first chunks pes hp i hi]
    by_cases h : (cumLen pes chunks i : Int) > pes.PacketSize
    · simp [stepObs, h]
    · simp [stepObs, h]
  · intro m hm hbefore hcross
    constructor
    · refine List.ext_getElem ?_ fun i h₁ h₂ => ?_
      · rw [List.length_take, accumRun_full_length first chunks pes hp]
        simp only [List.length_replicate]
        omega
      · have him : i < m := by simpa using h₂
        have hitotal : i ≤ chunks.length := by omega
        rw [List.getElem_take, List.getElem_replicate]
        have hgd := accumRun_full_getD first chunks pes hp i hitotal
        have hlen : i < (accumRun emptyPESAccumulator
            (mkHeaderPkt first :: chunks.map mkPayloadPkt)).2.length := by
          rw [accumRun_full_length first chunks pes hp]
          omega
        rw [List.getD_eq_getElem _ _ hlen] at hgd
        rw [hgd]
        have hlt := hbefore i him
        have hngt : ¬ ((cumLen pes chunks i : Int) > pes.PacketSize) := by omega
        have hne' : (cumLen pes chunks i : Int) ≠ pes.PacketSize := by omega
        simp [stepObs, hngt, hne']
    · rw [accumRun_full_getD first chunks pes hp m hm]
      simp [stepObs, hcross]

theorem accumulator_overrun_on_crossing_chunk_witness :
    ((accumRun emptyPESAccumulator
        (mkHeaderPkt [0, 0, 1, 190, 0, 2, 10] :: [[11, 12]].map mkPayloadPkt)).2.take 1
        = List.replicate 1 (false, none))
      ∧ (accumRun emptyPESAccumulator
          (mkHeaderPkt [0, 0, 1, 190, 0, 2, 10] :: [[11, 12]].map mkPayloadPkt)).2.getD 1
            (false, none)
        = (true, some .overrun) :=
  (accumulator_overrun_on_crossing_chunk [0, 0, 1, 190, 0, 2, 10] [[11, 12]]
    { packetStartCodePrefix := 1, dataAlignment := false, streamId := 190,
      pesPacketLength := 2, dataStartIndex := 6, ptsDtsIndicator := 0,
      pts := 0, dts := 0, data := [10] }
    rfl).2 1 (by decide) (by decide) (by decide)

/-- C10: a successfully parsed header with declared length 0 whose
optional header region was consumed (data start offset at least 9) has a
negative remaining PacketSize, so the accumulator overruns on its very
first write; a first write reporting done without error forces the data
start offset to be exactly 6. -/
theorem zero_length_optional_header_overruns (bytes : List Nat) (pes : PESHeader)
    (hp : NewPESHeader bytes = .ok pes)
    (h0 : pes.pesPacketLength = 0) :
    (9 ≤ pes.dataStartIndex →
        pes.PacketSize < 0
          ∧ (PESAccumulator.Write emptyPESAccumulator (mkHeaderPkt bytes)).2
            = (true, some .overrun))
      ∧ ((PESAccumulator.Write emptyPESAccumulator (mkHeaderPkt bytes)).2 = (true, none) →
          pes.dataStartIndex = 6) := by
  have hw := write_header_state bytes pes hp
  constructor
  · intro h9
    have hneg : pes.PacketSize < 0 := by
      simp only [PESHeader.PacketSize, h0]
      push_cast
      omega
    refine ⟨hneg, ?_⟩
    rw [hw]
    have hgt : (pes.data.length : Int) > pes.PacketSize := by omega
    simp [stepObs, hgt]
  · intro hdone
    rw [hw] at hdone
    rcases newPESHeader_ok_dataStartIndex hp with h6 | h9
    · exact h6
    · exfalso
      have hneg : pes.PacketSize < 0 := by
        simp only [PESHeader.PacketSize, h0]
        push_cast
        omega
      have hgt : (pes.data.length : Int) > pes.PacketSize := by omega
      simp [stepObs, hgt] at hdone

theorem zero_length_optional_header_overruns_witness :
    PESHeader.PacketSize
        { packetStartCodePrefix := 1, dataAlignment := false, streamId := 224,
          pesPacketLength := 0, dataStartIndex := 9, ptsDtsIndicator := 0,
          pts := 0, dts := 0, data := [] } < 0
      ∧ (PESAccumulator.Write emptyPESAccumulator
          (mkHeaderPkt [0, 0, 1, 224, 0, 0, 0, 0, 0])).2 = (true, some .overrun) :=
  (zero_length_optional_header_overruns [0, 0, 1, 224, 0, 0, 0, 0, 0]
    { packetStartCodePrefix := 1, dataAlignment := false, streamId := 224,
      pesPacketLength := 0, dataStartIndex := 9, ptsDtsIndicator := 0,
      pts := 0, dts := 0, data := [] }
    rfl rfl).1 (by decide)

/-! ### Value splitting -/

theorem splitOnNul_ne_nil (v : List Char) : splitOnNul v ≠ [] := by
  induction v with
  | nil => simp [splitOnNul]
  | cons c rest ih =>
    by_cases h : c = nulChar
    · simp [splitOnNul, h]
    · simp only [splitOnNul, if_neg h]
      cases hs : splitOnNul rest with
      | nil => simp
      | cons seg segs => simp

theorem splitOnNul_no_nul (v : List Char) (h : nulChar ∉ v) : splitOnNul v = [v] := by
  induction v with
  | nil => rfl
  | cons c rest ih =>
    have hc : ¬ c = nulChar := fun hc => h (by simp [hc])
    have hr := ih fun hr => h (by simp [hr])
    simp [splitOnNul, hc, hr]

theorem splitOnNul_append_nul (p q : List Char) (hp : nulChar ∉ p) :
    splitOnNul (p ++ nulChar :: q) = p :: splitOnNul q := by
  induction p with
  | nil => simp [splitOnNul]
  | cons c rest ih =>
    have hc : ¬ c = nulChar := fun hc => hp (by simp [hc])
    have hr := ih fun hr => hp (by simp [hr])
    simp [splitOnNul, hc, hr]

theorem splitOnNul_length (v : List Char) :
    (splitOnNul v).length = v.count nulChar + 1 := by
  induction v with
  | nil => rfl
  | cons c rest ih =>
    by_cases h : c = nulChar
    · simp [splitOnNul, h, List.count_cons, ih]
    · simp only [splitOnNul, if_neg h]
      cases hs : splitOnNul rest with
      | nil => exact absurd hs (splitOnNul_ne_nil rest)
      | cons seg segs =>
        rw [hs] at ih
        simp only [List.length_cons] at ih ⊢
        have hcount : (c :: rest).count nulChar = rest.count nulChar := by
          simp [List.count_cons, h]
        omega

/-- C6: parseValue splits a tag value on the literal NUL byte: exactly one
NUL (two segments) gives prefix/value, any other NUL count leaves the
string whole with an empty prefix; the three spec vectors behave as
documented. -/
theorem parseValue_splits_on_single_nul :
    (∀ p q : List Char, nulChar ∉ p → nulChar ∉ q →
        parseValue (p ++ nulChar :: q) = { Prefix := p, Value := q })
      ∧ (∀ v : List Char, v.count nulChar ≠ 1 →
          parseValue v = { Prefix := [], Value := v })
      ∧ (∀ v : List Char, (splitOnNul v).length = v.count nulChar + 1)
      ∧ parseValue "INTENSITY\x00high".toList
          = { Prefix := "INTENSITY".toList, Value := "high".toList }
      ∧ parseValue "high".toList = { Prefix := [], Value := "high".toList }
      ∧ parseValue "a\x00b\x00c".toList = { Prefix := [], Value := "a\x00b\x00c".toList } := by
  refine ⟨fun p q hp hq => ?_, fun v hv => ?_, splitOnNul_length, rfl, rfl, rfl⟩
  · simp [parseValue, splitOnNul_append_nul p q hp, splitOnNul_no_nul q hq]
  · have hlen : ¬ ((splitOnNul v).length = 2) := by
      rw [splitOnNul_length]
      omega
    simp [parseValue, hlen]

/-- C7: when packet processing itself raises no fatal error, a read
failure that is end-of-input or a truncated final packet terminates the
extraction successfully with exactly the records completed before it, in
input order, while any other read failure terminates it with the fatal
read error, preserving the same records. -/
theorem read_pipeline_terminal (metadataPID : Nat)
    (readID3 : List Nat → Option (List (String × String)))
    (pa : PESAccumulator) (pkts : List Packet)
    (hok : (processPackets metadataPID readID3 pa pkts).2 = none) :
    readPacketStream metadataPID readID3 pa (pkts.map ReadEvent.pkt ++ [ReadEvent.eof])
        = ((processPackets metadataPID readID3 pa pkts).1, none)
      ∧ readPacketStream metadataPID readID3 pa
          (pkts.map ReadEvent.pkt ++ [ReadEvent.truncated])
        = ((processPackets metadataPID readID3 pa pkts).1, none)
      ∧ readPacketStream metadataPID readID3 pa
          (pkts.map ReadEvent.pkt ++ [ReadEvent.failed])
        = ((processPackets metadataPID readID3 pa pkts).1, some PipeError.failedRead) := by
  induction pkts generalizing pa with
  | nil => simp [readPacketStream, processPackets]
  | cons p rest ih =>
    cases hstep : stepPacket metadataPID readID3 pa p with
    | fatal e => simp [processPackets, hstep] at hok
    | emit mi =>
      have hok' : (processPackets metadataPID readID3 emptyPESAccumulator rest).2 = none := by
        simpa [processPackets, hstep] using hok
      have ih' := ih emptyPESAccumulator hok'
      simp [readPacketStream, processPackets, hstep, ih'.1, ih'.2.1, ih'.2.2]
    | next pa' =>
      have hok' : (processPackets metadataPID readID3 pa' rest).2 = none := by
        simpa [processPackets, hstep] using hok
      have ih' := ih pa' hok'
      simp [readPacketStream, processPackets, hstep, ih'.1, ih'.2.1, ih'.2.2]

theorem read_pipeline_terminal_witness :
    readPacketStream 0 (fun _ => some []) emptyPESAccumulator
        ([mkHeaderPkt [0, 0, 1, 190, 0, 1, 7]].map ReadEvent.pkt ++ [ReadEvent.eof])
        = ((processPackets 0 (fun _ => some []) emptyPESAccumulator
            [mkHeaderPkt [0, 0, 1, 190, 0, 1, 7]]).1, none)
      ∧ readPacketStream 0 (fun _ => some []) emptyPESAccumulator
          ([mkHeaderPkt [0, 0, 1, 190, 0, 1, 7]].map ReadEvent.pkt ++ [ReadEvent.truncated])
        = ((processPackets 0 (fun _ => some []) emptyPESAccumulator
            [mkHeaderPkt [0, 0, 1, 190, 0, 1, 7]]).1, none)
      ∧ readPacketStream 0 (fun _ => some []) emptyPESAccumulator
          ([mkHeaderPkt [0, 0, 1, 190, 0, 1, 7]].map ReadEvent.pkt ++ [ReadEvent.failed])
        = ((processPackets 0 (fun _ => some []) emptyPESAccumulator
            [mkHeaderPkt [0, 0, 1, 190, 0, 1, 7]]).1, some PipeError.failedRead) :=
  read_pipeline_terminal 0 (fun _ => some []) emptyPESAccumulator
    [mkHeaderPkt [0, 0, 1, 190, 0, 1, 7]] rfl
